import Mathlib

/-!
Verification model of the `Ship-of-Theseus` chat orchestrator
(`src/main.rs`, module `gui`).

Two levels of modelling are used, matching where the Rust code cares
about bytes:

* Orchestrator-level strings (roles, chat content, channel messages) are
  modelled as `List Char`, mirroring Rust `String` as a sequence of
  Unicode scalar values.
* The snippet extractor `get_relevant_snippet` and the retrieval worker
  slice strings at byte offsets (`content[start..end]`,
  `lower_content.find`), so they are modelled down to UTF-8 bytes
  (`List Nat`).  A Rust byte-slice of a `str` panics when an index is
  out of bounds, when start exceeds end, or when an index is not a
  character boundary; panics are modelled as `Option.none`.
-/

namespace Ship

/-- UTF-8 encoding of one Unicode scalar value, as its list of bytes. -/
def utf8EncodeChar (c : Char) : List Nat :=
  let n := c.toNat
  if n < 0x80 then [n]
  else if n < 0x800 then [0xC0 + n / 64, 0x80 + n % 64]
  else if n < 0x10000 then
    [0xE0 + n / 4096, 0x80 + (n / 64) % 64, 0x80 + n % 64]
  else
    [0xF0 + n / 262144, 0x80 + (n / 4096) % 64, 0x80 + (n / 64) % 64, 0x80 + n % 64]

/-- The UTF-8 bytes of a string (Rust `str::as_bytes`; `str::len` is its length). -/
def strBytes : List Char → List Nat
  | [] => []
  | c :: t => utf8EncodeChar c ++ strBytes t

/-- Models the UTF-8 bytes of Rust `char` lowercasing as performed by
`str::to_lowercase`, on the character subset exercised in this
development: ASCII characters map `A..=Z` to `a..=z` and stay fixed
otherwise, and U+0130 (LATIN CAPITAL LETTER I WITH DOT ABOVE, 2 bytes)
is special-cased by Rust to the two-character string `"i\u{307}"`
(3 bytes).  Rust's full Unicode lowercase table is out of scope; every
theorem below stays inside this subset. -/
def charLowerBytes (c : Char) : List Nat :=
  if c.toNat = 0x130 then [0x69, 0xCC, 0x87]
  else if 65 ≤ c.toNat ∧ c.toNat ≤ 90 then [c.toNat + 32]
  else utf8EncodeChar c

/-- The UTF-8 bytes of `s.to_lowercase()` (Rust). -/
def lowerBytes : List Char → List Nat
  | [] => []
  | c :: t => charLowerBytes c ++ lowerBytes t

/-- Rust `str::find(&str)`: byte offset of the first occurrence of `pat`
in `hay` (in valid UTF-8 a substring match always lands on a character
boundary, so plain byte search coincides with Rust's behaviour);
`find` of an empty pattern is `some 0`. -/
def findSub (hay pat : List Nat) : Option Nat :=
  if pat <+: hay then some 0
  else
    match hay with
    | [] => none
    | _ :: t => (findSub t pat).map (· + 1)

/-- Rust `str::is_char_boundary` for an index `i ≤ len`: `0` and `len`
are boundaries, an interior index is a boundary iff its byte is not a
UTF-8 continuation byte (`0x80..=0xBF`). -/
def isBoundary (bs : List Nat) (i : Nat) : Bool :=
  if i = 0 ∨ i = bs.length then true
  else
    match bs.get? i with
    | some b => decide (b < 0x80 ∨ 0xC0 ≤ b)
    | none => false

/-- Rust byte-range slicing `s[start..stop]` on a `str`: returns the
byte slice when `start ≤ stop ≤ len` and both ends are character
boundaries, and panics otherwise (modelled as `none`). -/
def rustSlice (bs : List Nat) (start stop : Nat) : Option (List Nat) :=
  if start ≤ stop ∧ stop ≤ bs.length ∧ isBoundary bs start ∧ isBoundary bs stop
  then some ((bs.drop start).take (stop - start))
  else none

/-- `ShipApp::get_relevant_snippet` (main.rs lines 154-165): lowercase
the content and the keyword, `find` the keyword's byte offset in the
lowered content; on a hit, slice the ORIGINAL content's bytes from
`index.saturating_sub(200)` to `min(index + 500, content.len())`
(note the saturating `Nat` subtraction matches Rust
`usize::saturating_sub`); on a miss return the empty string.  `none`
models a panic of the slice `content[start..end]`. -/
def get_relevant_snippet (content keyword : List Char) : Option (List Nat) :=
  match findSub (lowerBytes content) (lowerBytes keyword) with
  | some index =>
      let cb := strBytes content
      rustSlice cb (index - 200) (min (index + 500) cb.length)
  | none => some []

/-- U+0130, whose Rust lowercase is the 3-byte string `"i\u{307}"`
while the character itself is 2 bytes: lowercasing shifts byte offsets. -/
def capDottedI : Char := Char.ofNat 0x130

/-- A 300-character document of U+0130 followed by `x`: lowering it
moves the `find` offset of `"x"` to 900 while the document itself has
601 bytes, so the code computes the slice `content[700..601]`. -/
def docC2 : List Char := List.replicate 300 capDottedI ++ ['x']

/-- A 101-character document of U+0130 followed by `x`: the `find`
offset in the lowered text is 303, so the code slices
`content[103..203]`, and byte 103 of the document is not a character
boundary. -/
def docC10 : List Char := List.replicate 101 capDottedI ++ ['x']

/-! ### Retrieval worker (`ShipApp::scan_research`, lines 113-151) -/

/-- One document of the corpus: its file name and the result of
`pdf_extract::extract_text` (`none` models a per-document extraction
failure, which the worker's `if let Ok(content)` silently skips). -/
structure RDoc where
  name : List Char
  extract : Option (List Char)
deriving DecidableEq

/-- The bytes the worker appends to `found_data` for one document
(`format!("\n[SOURCE: {}]\n{}\n", filename, snippet)` guarded by the
case-insensitive `contains` check); `some []` when the document is
skipped (extraction failure or no keyword occurrence), `none` when
`get_relevant_snippet` panics, killing the worker thread. -/
def docEntry (keyword : List Char) (d : RDoc) : Option (List Nat) :=
  match d.extract with
  | none => some []
  | some content =>
      if (findSub (lowerBytes content) (lowerBytes keyword)).isSome then
        match get_relevant_snippet content keyword with
        | some snip =>
            some (strBytes "\n[SOURCE: ".data ++ strBytes d.name
              ++ strBytes "]\n".data ++ snip ++ strBytes "\n".data)
        | none => none
      else some []

/-- The aggregated `found_data` buffer after the worker's loop over the
corpus; `none` propagates a snippet panic (the loop never finishes and
no terminal event is sent). -/
def scanBuffer (keyword : List Char) (docs : List RDoc) : Option (List Nat) :=
  docs.foldl (fun acc d => acc.bind fun b => (docEntry keyword d).map fun e => b ++ e)
    (some [])

/-- The worker's initial status message
`format!("__STATUS__: Scanning for signal '{}'...", keyword)`, as bytes. -/
def statusMsgBytes (keyword : List Char) : List Nat :=
  strBytes "__STATUS__: Scanning for signal '".data ++ strBytes keyword
    ++ strBytes "'...".data

/-- The bytes of the event `"__RESEARCH_EMPTY__"`. -/
def researchEmptyBytes : List Nat := strBytes "__RESEARCH_EMPTY__".data

/-- The bytes of the prefix `"__RESEARCH_DATA__:"` used by
`format!("__RESEARCH_DATA__:{}", found_data)`. -/
def researchDataTagBytes : List Nat := strBytes "__RESEARCH_DATA__:".data

/-- The fixed 33-byte prefix of every status message. -/
def statusHeadBytes : List Nat := strBytes "__STATUS__: Scanning for signal '".data

/-- The complete sequence of channel messages sent by one run of the
retrieval worker (lines 122-150): the status message, then — provided
the document loop completes — exactly one terminal message. -/
def scanWorkerEmits (keyword : List Char) (docs : List RDoc) : List (List Nat) :=
  statusMsgBytes keyword ::
    (match scanBuffer keyword docs with
     | none => []
     | some b => if b = [] then [researchEmptyBytes] else [researchDataTagBytes ++ b])

/-- A message is a terminal event of the retrieval protocol when it is
`__RESEARCH_EMPTY__` or starts with `__RESEARCH_DATA__:`. -/
def isScanTerminal (m : List Nat) : Bool :=
  m == researchEmptyBytes || decide (researchDataTagBytes <+: m)

/-! ### Turn orchestrator (`ShipApp` state and `eframe::App::update`) -/

/-- `AppState` (lines 31-36). -/
inductive AppState where
  | Idle
  | Scanning
  | Generating
deriving DecidableEq

/-- `Message` (lines 23-28): one turn of the conversation history. -/
structure Message where
  role : List Char
  has_image : Bool
  content : List Char
deriving DecidableEq

/-- A record of one worker-task spawn, capturing exactly the values the
Rust closure captures at spawn time (`thread::spawn` itself is
fire-and-forget; the capture is what the claims observe). -/
inductive Spawn where
  | retrieval (dir keyword : List Char)
  | inference (model prompt researchContext : List Char) (image : Option (List Char))
deriving DecidableEq

/-- The orchestrator-visible fields of `ShipApp` (lines 38-60), plus a
ghost log `spawned` of worker spawns in order.  The channel endpoints
and the UI-only `models` list carry no claim-relevant state. -/
structure ShipApp where
  input_text : List Char
  messages : List Message
  selected_model : List Char
  state : AppState
  research_results : List Char
  research_dir : List Char
  is_reasoning_mode : Bool
  current_image_base64 : Option (List Char)
  current_image_path : Option (List Char)
  spawned : List Spawn
deriving DecidableEq

/-- The channel message `"__DONE__"`. -/
def doneStr : List Char := "__DONE__".data

/-- The tag `"__STATUS__"` tested with `starts_with`. -/
def statusTag : List Char := "__STATUS__".data

/-- The tag `"__RESEARCH_DATA__"` tested with `starts_with` and passed
to `trim_start_matches` — note: without the `:` separator. -/
def researchDataTag : List Char := "__RESEARCH_DATA__".data

/-- The channel message `"__RESEARCH_EMPTY__"`. -/
def researchEmptyStr : List Char := "__RESEARCH_EMPTY__".data

/-- The role string `"user"`. -/
def userRole : List Char := "user".data

/-- The role string `"assistant"`. -/
def assistantRole : List Char := "assistant".data

/-- The fixed error text sent when the Ollama call fails (line 215). -/
def ollamaErrText : List Char := "Error: Failed to connect to Ollama.".data

/-- Fuel-indexed core of `str::trim_start_matches`: repeatedly strip a
leading occurrence of `pat`.  Each strip removes at least one character
when `pat` is non-empty, so fuel `s.length` is enough. -/
def trimStartMatchesAux : Nat → List Char → List Char → List Char
  | 0, _, s => s
  | fuel + 1, pat, s =>
      if pat ≠ [] ∧ pat <+: s then trimStartMatchesAux fuel pat (s.drop pat.length)
      else s

/-- Rust `str::trim_start_matches(pat)`: removes ALL leading
occurrences of `pat` (not just one). -/
def trimStartMatches (pat s : List Char) : List Char :=
  trimStartMatchesAux s.length pat s

/-- `ShipApp::trigger_ollama_generation` (lines 168-223), restricted to
its synchronous effect on the live state: set the state to Generating,
spawn the inference task capturing the selected model, the prompt, the
research buffer and the base64 image, clear `research_results`, and
reset `current_image_base64` — `current_image_path` is not touched. -/
def trigger_ollama_generation (app : ShipApp) (prompt : List Char) : ShipApp :=
  { app with
    state := AppState.Generating,
    research_results := [],
    spawned := app.spawned
      ++ [Spawn.inference app.selected_model prompt app.research_results
            app.current_image_base64],
    current_image_base64 := none }

/-- `ShipApp::scan_research` (lines 114-151), restricted to its
synchronous effect on the live state: set the state to Scanning and
spawn the retrieval task capturing the corpus directory and keyword. -/
def scan_research (app : ShipApp) (keyword : List Char) : ShipApp :=
  { app with
    state := AppState.Scanning,
    spawned := app.spawned ++ [Spawn.retrieval app.research_dir keyword] }

/-- The per-message handler of the drain loop in `update`
(lines 236-280), in the source's test order: `"__DONE__"`, then
`starts_with("__STATUS__")`, then `starts_with("__RESEARCH_DATA__")`,
then `"__RESEARCH_EMPTY__"`, else a streamed content chunk. -/
def processMsg (app : ShipApp) (msg : List Char) : ShipApp :=
  if msg = doneStr then { app with state := AppState.Idle }
  else if statusTag <+: msg then app
  else if researchDataTag <+: msg then
    let app' := { app with research_results := trimStartMatches researchDataTag msg }
    match app'.messages.getLast? with
    | some lm =>
        if lm.role = userRole then trigger_ollama_generation app' lm.content else app'
    | none => app'
  else if msg = researchEmptyStr then
    match app.messages.getLast? with
    | some lm =>
        if lm.role = userRole then trigger_ollama_generation app lm.content else app
    | none => app
  else
    match app.messages.getLast? with
    | some lm =>
        if lm.role = assistantRole then
          { app with
            messages := app.messages.dropLast
              ++ [{ lm with content := lm.content ++ msg }] }
        else
          { app with
            messages := app.messages ++ [⟨assistantRole, false, msg⟩] }
    | none => app

/-- Draining a queue of channel messages in order (`while let Ok(msg) =
rx_guard.try_recv()`). -/
def processMsgs (app : ShipApp) (msgs : List (List Char)) : ShipApp :=
  msgs.foldl processMsg app

/-- A channel message that matches none of the known tags, i.e. is
treated as a streamed assistant content chunk. -/
def IsContentMsg (msg : List Char) : Prop :=
  msg ≠ doneStr ∧ ¬ (statusTag <+: msg) ∧ ¬ (researchDataTag <+: msg)
    ∧ msg ≠ researchEmptyStr

instance (msg : List Char) : Decidable (IsContentMsg msg) := by
  unfold IsContentMsg; infer_instance

/-- The submit action (the send-button handler, lines 332-351): gated
on `state == AppState::Idle`; when it fires it appends a user turn
holding the input text, clears the input box, and spawns either the
retrieval worker (reasoning mode) or the inference worker directly. -/
def submit (app : ShipApp) : ShipApp :=
  if app.state = AppState.Idle then
    let user_text := app.input_text
    let app' := { app with
      messages := app.messages
        ++ [⟨userRole, app.current_image_base64.isSome, user_text⟩],
      input_text := [] }
    if app'.is_reasoning_mode then scan_research app' user_text
    else trigger_ollama_generation app' user_text
  else app

/-- The outcome of `ollama.send_chat_messages` as the worker observes
it: `ok` with the optional `response.message` content, or an error. -/
inductive OllamaResult where
  | ok (message : Option (List Char))
  | err
deriving DecidableEq

/-- The channel messages emitted by the inference worker's closure
(lines 208-218): on success, the reply content if the response carries
a message; on failure, the fixed error text; in every case `"__DONE__"`
afterward. -/
def inferenceWorkerEmits (r : OllamaResult) : List (List Char) :=
  (match r with
   | OllamaResult.ok (some content) => [content]
   | OllamaResult.ok none => []
   | OllamaResult.err => [ollamaErrText]) ++ [doneStr]

/-! ### Resource probe (`ShipApp::get_vram_usage`, lines 94-111) -/

/-- Rust `str::lines().next()`: the text before the first `'\n'` with a
single trailing `'\r'` stripped, or `none` for the empty string. -/
def firstLine (s : List Char) : Option (List Char) :=
  if s = [] then none
  else
    let l := s.takeWhile (· ≠ '\n')
    some (if l.getLast? = some '\r' then l.dropLast else l)

/-- Rust `str::split(',')` (`"".split(',')` yields one empty piece). -/
def splitComma : List Char → List (List Char)
  | [] => [[]]
  | c :: rest =>
      if c = ',' then [] :: splitComma rest
      else
        match splitComma rest with
        | h :: t => (c :: h) :: t
        | [] => [[c]]

/-- Rust `str::trim` on the ASCII whitespace relevant here (the full
Unicode `char::is_whitespace` agrees with `Char.isWhitespace` on the
ASCII inputs these claims exercise). -/
def trimChars (s : List Char) : List Char :=
  ((s.dropWhile Char.isWhitespace).reverse.dropWhile Char.isWhitespace).reverse

/-- Rust `u64::from_str` (`str::parse::<u64>()`): an optional leading
`'+'`, then one or more ASCII digits, no other characters; errors on
overflow past `2^64 - 1`. -/
def parseU64 (s : List Char) : Option Nat :=
  let digits := match s with
    | '+' :: rest => rest
    | _ => s
  if digits ≠ [] ∧ digits.all Char.isDigit then
    let v := digits.foldl (fun a c => a * 10 + (c.toNat - 48)) 0
    if v < 2 ^ 64 then some v else none
  else none

/-- `ShipApp::get_vram_usage` (lines 94-111).  The input models the
result of running `nvidia-smi`: `none` when the command itself fails,
`some stdout` otherwise.  The code takes the first stdout line, splits
it on `','`, and only when there are exactly two fields parses each
trimmed field with `parse::<u64>().unwrap_or(0)`; every other shape
falls through to `(0, 0)`. -/
def get_vram_usage (cmdOutput : Option (List Char)) : Nat × Nat :=
  match cmdOutput with
  | none => (0, 0)
  | some stdout =>
      match firstLine stdout with
      | some line =>
          match splitComma line with
          | [a, b] =>
              ((parseU64 (trimChars a)).getD 0, (parseU64 (trimChars b)).getD 0)
          | _ => (0, 0)
      | none => (0, 0)

/-! ### Concrete states used by witnesses and counterexamples -/

/-- ASCII lowercasing on code points, used to state the ASCII lemmas. -/
def asciiLower (n : Nat) : Nat := if 65 ≤ n ∧ n ≤ 90 then n + 32 else n

/-- A state with EMPTY history, in Generating (an inference worker in
flight), as when a content event would arrive with no turns recorded. -/
def appC1 : ShipApp :=
  ⟨[], [], "gemma3:27b".data, AppState.Generating, [], "/tmp/docs".data,
    false, none, none, []⟩

/-- A state whose history is a single user turn, awaiting a streamed
assistant reply. -/
def appC1W : ShipApp :=
  { appC1 with messages := [⟨userRole, false, "hi".data⟩] }

/-- An empty-history state used to observe the stored research buffer
(with no user turn, no follow-up inference is triggered). -/
def appC3 : ShipApp :=
  ⟨[], [], "gemma3:27b".data, AppState.Scanning, [], "/tmp/docs".data,
    true, none, none, []⟩

/-- A mid-scan state with pending input, used to exercise the submit
gate outside Idle. -/
def appC5W : ShipApp :=
  ⟨"second question".data, [⟨userRole, false, "first question".data⟩],
    "gemma3:27b".data, AppState.Scanning, [], "/tmp/docs".data, true,
    some "imgdata".data, some "/tmp/i.png".data, [Spawn.retrieval "/tmp/docs".data "first question".data]⟩

/-- A two-document corpus: one readable document containing the
keyword, one whose text extraction fails. -/
def docsC7W : List RDoc :=
  [⟨"a.pdf".data, some "big signal stuff".data⟩, ⟨"bad.pdf".data, none⟩]

/-- The keyword used against `docsC7W` (matching case-insensitively). -/
def keywordC7W : List Char := "Signal".data

/-- The evidence buffer the scan of `docsC7W` aggregates. -/
def bufC7W : List Nat := (scanBuffer keywordC7W docsC7W).getD []

/-- A state with a pending image: both the encoded payload and the
original path are set. -/
def appC8 : ShipApp :=
  ⟨[], [⟨userRole, true, "what is this".data⟩], "gemma3:27b".data,
    AppState.Idle, [], "/tmp/docs".data, false, some "base64payload".data,
    some "/tmp/i.png".data, []⟩

/-- A 50-character ASCII document whose keyword match is at offset 0. -/
def contentC2W : List Char := "signal".data ++ List.replicate 44 'a'

end Ship

/-! ## Theorems -/

set_option maxRecDepth 40000

namespace Ship

lemma utf8EncodeChar_ascii (c : Char) (h : c.toNat < 128) :
    utf8EncodeChar c = [c.toNat] := by
  simp only [utf8EncodeChar]
  rw [if_pos h]

lemma charLowerBytes_ascii (c : Char) (h : c.toNat < 128) :
    charLowerBytes c = [asciiLower c.toNat] := by
  have h0 : ¬ c.toNat = 0x130 := by omega
  by_cases h1 : 65 ≤ c.toNat ∧ c.toNat ≤ 90
  · simp [charLowerBytes, asciiLower, h0, h1]
  · simp [charLowerBytes, asciiLower, h0, h1, utf8EncodeChar_ascii c h]

lemma strBytes_ascii (s : List Char) (h : ∀ c ∈ s, c.toNat < 128) :
    strBytes s = s.map Char.toNat := by
  induction s with
  | nil => rfl
  | cons c t ih =>
      have hc := h c (List.mem_cons_self c t)
      have ht : ∀ x ∈ t, x.toNat < 128 := fun x hx => h x (List.mem_cons_of_mem c hx)
      simp [strBytes, utf8EncodeChar_ascii c hc, ih ht]

lemma lowerBytes_ascii (s : List Char) (h : ∀ c ∈ s, c.toNat < 128) :
    lowerBytes s = s.map (fun c => asciiLower c.toNat) := by
  induction s with
  | nil => rfl
  | cons c t ih =>
      have hc := h c (List.mem_cons_self c t)
      have ht : ∀ x ∈ t, x.toNat < 128 := fun x hx => h x (List.mem_cons_of_mem c hx)
      simp [lowerBytes, charLowerBytes_ascii c hc, ih ht]

lemma strBytes_all_lt (s : List Char) (h : ∀ c ∈ s, c.toNat < 128) :
    ∀ b ∈ strBytes s, b < 128 := by
  rw [strBytes_ascii s h]
  intro b hb
  obtain ⟨c, hc, rfl⟩ := List.mem_map.mp hb
  exact h c hc

lemma findSub_le (hay pat : List Nat) (i : Nat) (h : findSub hay pat = some i) :
    i ≤ hay.length := by
  induction hay generalizing i with
  | nil =>
      unfold findSub at h
      split at h
      · cases h; exact Nat.le_refl 0
      · cases h
  | cons a t ih =>
      unfold findSub at h
      split at h
      · cases h; exact Nat.zero_le _
      · obtain ⟨j, hj, rfl⟩ := Option.map_eq_some'.mp h
        have := ih j hj
        simp only [List.length_cons]
        omega

lemma isBoundary_ascii (bs : List Nat) (hb : ∀ b ∈ bs, b < 128) (i : Nat)
    (hi : i ≤ bs.length) : isBoundary bs i = true := by
  unfold isBoundary
  by_cases h0 : i = 0 ∨ i = bs.length
  · rw [if_pos h0]
  · rw [if_neg h0]
    have hlt : i < bs.length := by omega
    rw [List.get?_eq_get hlt]
    have h2 : bs.get ⟨i, hlt⟩ < 128 := hb _ (List.get_mem bs i hlt)
    show decide (bs.get ⟨i, hlt⟩ < 0x80 ∨ 0xC0 ≤ bs.get ⟨i, hlt⟩) = true
    simp only [decide_eq_true_eq]
    exact Or.inl h2

lemma rustSlice_ascii (bs : List Nat) (s e : Nat) (hb : ∀ b ∈ bs, b < 128)
    (hse : s ≤ e) (hel : e ≤ bs.length) :
    rustSlice bs s e = some ((bs.drop s).take (e - s)) := by
  unfold rustSlice
  rw [if_pos]
  exact ⟨hse, hel, isBoundary_ascii bs hb s (Nat.le_trans hse hel),
    isBoundary_ascii bs hb e hel⟩

lemma snippet_ascii_found (content keyword : List Char)
    (hc : ∀ c ∈ content, c.toNat < 128) (i : Nat)
    (hfind : findSub (lowerBytes content) (lowerBytes keyword) = some i) :
    get_relevant_snippet content keyword
      = some (((strBytes content).drop (i - 200)).take
          (min (i + 500) (strBytes content).length - (i - 200))) := by
  have hlen : (lowerBytes content).length = (strBytes content).length := by
    rw [lowerBytes_ascii content hc, strBytes_ascii content hc]
    simp
  have hiL : i ≤ (strBytes content).length := hlen ▸ findSub_le _ _ i hfind
  unfold get_relevant_snippet
  rw [hfind]
  exact rustSlice_ascii _ _ _ (strBytes_all_lt content hc)
    (Nat.le_min.mpr ⟨by omega, by omega⟩) (Nat.min_le_right _ _)

end Ship

namespace Ship

/-- C2 (counterexample): the claim quantifies over EVERY document text,
but on the 601-byte document `docC2` (300 copies of U+0130 then `x`)
with keyword `"x"` — whose first case-insensitive match in the document
is at byte offset 600 — the code finds the keyword at offset 900 of the
LOWERCASED text (lowercasing U+0130 grows each character from 2 to 3
bytes) and then evaluates `content[700..601]`, which panics (modelled
as `none`) instead of returning the claimed substring. -/
theorem c2_counterexample : get_relevant_snippet docC2 ['x'] = none := by decide

/-- C2 (amended): restricted to ASCII documents and keywords — where
lowercasing preserves byte offsets, so the `find` offset `i` in the
lowered text IS the first case-insensitive match offset in the document
— `get_relevant_snippet` returns exactly the bytes of the document from
`max(0, i - 200)` to `min(L, i + 500)`; in particular a 50-byte
document with the match at offset 0 yields the entire document. -/
theorem c2_snippet_bounds_amended (content keyword : List Char)
    (hc : ∀ c ∈ content, c.toNat < 128) (_hk : ∀ c ∈ keyword, c.toNat < 128)
    (i : Nat)
    (hfind : findSub (lowerBytes content) (lowerBytes keyword) = some i) :
    (lowerBytes content).length = (strBytes content).length
    ∧ get_relevant_snippet content keyword
        = some (((strBytes content).drop (i - 200)).take
            (min (i + 500) (strBytes content).length - (i - 200)))
    ∧ ((strBytes content).length = 50 → i = 0 →
        get_relevant_snippet content keyword = some (strBytes content)) := by
  have hlen : (lowerBytes content).length = (strBytes content).length := by
    rw [lowerBytes_ascii content hc, strBytes_ascii content hc]
    simp
  have hmain := snippet_ascii_found content keyword hc i hfind
  refine ⟨hlen, hmain, fun h50 h0 => ?_⟩
  subst h0
  rw [hmain, h50]
  norm_num
  rw [← h50]

/-- C2 (witness for the amended theorem): the 50-character ASCII
document `contentC2W` with keyword `"SIGNAL"` matching at offset 0
yields the entire document. -/
theorem c2_witness :
    findSub (lowerBytes contentC2W) (lowerBytes "SIGNAL".data) = some 0
    ∧ get_relevant_snippet contentC2W "SIGNAL".data = some (strBytes contentC2W) :=
  ⟨by decide,
    (c2_snippet_bounds_amended contentC2W "SIGNAL".data (by decide) (by decide) 0
      (by decide)).2.2 (by decide) rfl⟩

/-- C10 (counterexample): `get_relevant_snippet` is NOT total over all
Unicode inputs: on the 203-byte document `docC10` (101 copies of U+0130
then `x`) with keyword `"x"`, the `find` offset in the lowered text is
303, the code slices `content[103..203]`, and byte 103 of the document
falls inside a 2-byte character, so the slice panics (modelled as
`none`); no string is returned. -/
theorem c10_counterexample : get_relevant_snippet docC10 ['x'] = none := by decide

/-- C10 (amended): for ASCII documents and keywords the computed byte
range is always in bounds and on character boundaries, so
`get_relevant_snippet` always returns a string. -/
theorem c10_snippet_total_amended (content keyword : List Char)
    (hc : ∀ c ∈ content, c.toNat < 128) (_hk : ∀ c ∈ keyword, c.toNat < 128) :
    (get_relevant_snippet content keyword).isSome = true := by
  cases hfind : findSub (lowerBytes content) (lowerBytes keyword) with
  | none =>
      unfold get_relevant_snippet
      rw [hfind]
      rfl
  | some i =>
      rw [snippet_ascii_found content keyword hc i hfind]
      rfl

/-- C10 (witness for the amended theorem): a small ASCII instance. -/
theorem c10_witness :
    (∀ c ∈ ("Hello world".data : List Char), c.toNat < 128)
    ∧ (get_relevant_snippet "Hello world".data "WORLD".data).isSome = true :=
  ⟨by decide,
    c10_snippet_total_amended "Hello world".data "WORLD".data (by decide) (by decide)⟩

end Ship

namespace Ship

lemma processMsg_done (app : ShipApp) :
    processMsg app doneStr = { app with state := AppState.Idle } := by
  unfold processMsg
  rw [if_pos rfl]

lemma processMsg_content (app : ShipApp) (msg : List Char) (h : IsContentMsg msg) :
    processMsg app msg =
      match app.messages.getLast? with
      | some lm =>
          if lm.role = assistantRole then
            { app with
              messages := app.messages.dropLast
                ++ [{ lm with content := lm.content ++ msg }] }
          else
            { app with messages := app.messages ++ [⟨assistantRole, false, msg⟩] }
      | none => app := by
  obtain ⟨h1, h2, h3, h4⟩ := h
  unfold processMsg
  rw [if_neg h1, if_neg h2, if_neg h3, if_neg h4]

lemma processMsg_content_assistant (app : ShipApp) (msg : List Char)
    (h : IsContentMsg msg) (init : List Message) (lm : Message)
    (hm : app.messages = init ++ [lm]) (hr : lm.role = assistantRole) :
    processMsg app msg
      = { app with messages := init ++ [{ lm with content := lm.content ++ msg }] } := by
  rw [processMsg_content app msg h, hm, List.getLast?_concat]
  simp [hr, List.dropLast_concat]

lemma processMsg_content_other (app : ShipApp) (msg : List Char)
    (h : IsContentMsg msg) (init : List Message) (lm : Message)
    (hm : app.messages = init ++ [lm]) (hr : ¬ lm.role = assistantRole) :
    processMsg app msg
      = { app with messages := init ++ [lm, ⟨assistantRole, false, msg⟩] } := by
  rw [processMsg_content app msg h, hm, List.getLast?_concat]
  simp [hr]

lemma processMsgs_content_assistant (ps : List (List Char)) :
    ∀ (app : ShipApp) (init : List Message) (lm : Message),
      app.messages = init ++ [lm] → lm.role = assistantRole →
      (∀ p ∈ ps, IsContentMsg p) →
      (processMsgs app ps).messages
        = init ++ [{ lm with content := lm.content ++ ps.flatten }] := by
  induction ps with
  | nil =>
      intro app init lm hm hr _
      simp only [processMsgs, List.foldl_nil, List.flatten_nil, List.append_nil]
      rw [hm]
  | cons p t ih =>
      intro app init lm hm hr hall
      have hp := hall p (List.mem_cons_self p t)
      have hstep := processMsg_content_assistant app p hp init lm hm hr
      show (processMsgs (processMsg app p) t).messages = _
      rw [ih (processMsg app p) init { lm with content := lm.content ++ p }
        (by rw [hstep]) hr (fun q hq => hall q (List.mem_cons_of_mem p hq))]
      simp [List.append_assoc]

/-- C1 (counterexample): the claim covers "the case where history is
empty when the first content event arrives", but the handler is guarded
by `if let Some(last_msg) = self.messages.last_mut()`: on the
empty-history state `appC1` a content event (here `"hello"`, which
matches no known tag) is silently dropped and NO assistant Turn is
created, leaving history empty instead of the claimed
one-assistant-turn history. -/
theorem c1_counterexample :
    IsContentMsg "hello".data
    ∧ (processMsg appC1 "hello".data).messages = []
    ∧ ([] : List Message) ≠ [⟨assistantRole, false, "hello".data⟩] := by
  refine ⟨by decide, ?_, by decide⟩
  decide

/-- C1 (amended): PROVIDED history is non-empty, a content event (a
channel message matching no known tag) appends to the last Turn's text
when that Turn's role is `assistant` and otherwise appends a new
assistant Turn carrying exactly the message; consequently N consecutive
content events arriving while the last Turn is a non-assistant turn
(the normal case: a freshly pushed user Turn) grow history by exactly
one assistant Turn whose text is the ordered concatenation of the N
payloads.  (With empty history, content events are dropped — see the
counterexample.) -/
theorem c1_history_aggregation_amended (app : ShipApp) (init : List Message)
    (lm : Message) (hm : app.messages = init ++ [lm]) :
    (∀ msg, IsContentMsg msg → lm.role = assistantRole →
        (processMsg app msg).messages
          = init ++ [{ lm with content := lm.content ++ msg }])
    ∧ (∀ msg, IsContentMsg msg → lm.role ≠ assistantRole →
        (processMsg app msg).messages
          = init ++ [lm, ⟨assistantRole, false, msg⟩])
    ∧ (∀ ps, ps ≠ [] → (∀ p ∈ ps, IsContentMsg p) → lm.role ≠ assistantRole →
        (processMsgs app ps).messages
          = init ++ [lm, ⟨assistantRole, false, ps.flatten⟩]) := by
  refine ⟨?_, ?_, ?_⟩
  · intro msg h hr
    rw [processMsg_content_assistant app msg h init lm hm hr]
  · intro msg h hr
    rw [processMsg_content_other app msg h init lm hm hr]
  · intro ps hne hall hr
    cases ps with
    | nil => exact absurd rfl hne
    | cons p t =>
        have hp := hall p (List.mem_cons_self p t)
        have hstep := processMsg_content_other app p hp init lm hm hr
        show (processMsgs (processMsg app p) t).messages = _
        rw [processMsgs_content_assistant t (processMsg app p) (init ++ [lm])
          ⟨assistantRole, false, p⟩
          (by rw [hstep]; simp)
          rfl (fun q hq => hall q (List.mem_cons_of_mem p hq))]
        simp

/-- C1 (witness for the amended theorem): starting from a single user
turn, two streamed chunks `"a"` and `"b"` leave history as that user
turn followed by one assistant turn with text `"ab"`. -/
theorem c1_witness :
    appC1W.messages = [] ++ [⟨userRole, false, "hi".data⟩]
    ∧ (processMsgs appC1W ["a".data, "b".data]).messages
        = [] ++ [⟨userRole, false, "hi".data⟩,
            ⟨assistantRole, false, (["a".data, "b".data] : List (List Char)).flatten⟩] :=
  ⟨by decide,
    (c1_history_aggregation_amended appC1W [] ⟨userRole, false, "hi".data⟩
      (by decide)).2.2 ["a".data, "b".data] (by decide) (by decide) (by decide)⟩

/-- C4 (confirmed): processing the channel message `"__DONE__"` sets
the state to Idle whatever the prior state was — in fact it changes
nothing but the state, so the prior history is irrelevant (idempotent
terminal signal). -/
theorem c4_done_idle (app : ShipApp) :
    processMsg app doneStr = { app with state := AppState.Idle } :=
  processMsg_done app

/-- C5 (confirmed): the send handler fires only under
`self.state == AppState::Idle`, so submitting while the state is
Scanning or Generating leaves the whole program state unchanged: no
Turn is appended, no worker spawn is recorded, and the state, the
research buffer and the pending image are untouched. -/
theorem c5_submit_gated (app : ShipApp) (h : app.state ≠ AppState.Idle) :
    submit app = app := by
  unfold submit
  rw [if_neg h]

/-- C5 (witness): the gate on the concrete mid-scan state `appC5W`. -/
theorem c5_witness : appC5W.state ≠ AppState.Idle ∧ submit appC5W = appC5W :=
  ⟨by decide, c5_submit_gated appC5W (by decide)⟩

/-- C6 (confirmed): the inference worker emits, on backend failure,
exactly the fixed error string followed by `"__DONE__"`; in every
outcome its last emitted message is `"__DONE__"`; and draining its
emission through the orchestrator always lands the state machine in
Idle. -/
theorem c6_inference_error_protocol :
    inferenceWorkerEmits OllamaResult.err = [ollamaErrText, doneStr]
    ∧ (∀ r, (inferenceWorkerEmits r).getLast? = some doneStr)
    ∧ (∀ r app, (processMsgs app (inferenceWorkerEmits r)).state = AppState.Idle) := by
  refine ⟨rfl, ?_, ?_⟩
  · intro r
    cases r with
    | ok m => cases m <;> rfl
    | err => rfl
  · intro r app
    cases r with
    | ok m =>
        cases m with
        | some c =>
            show (processMsg (processMsg app c) doneStr).state = AppState.Idle
            rw [processMsg_done]
        | none =>
            show (processMsg app doneStr).state = AppState.Idle
            rw [processMsg_done]
    | err =>
        show (processMsg (processMsg app ollamaErrText) doneStr).state = AppState.Idle
        rw [processMsg_done]

/-- C8 (counterexample): the claim says BOTH `current_image_base64` and
`current_image_path` are cleared at spawn time, but
`trigger_ollama_generation` only resets `current_image_base64` (line
222); on the state `appC8` the original path survives the spawn
unchanged (it is never assigned anywhere after initialization). -/
theorem c8_counterexample :
    (trigger_ollama_generation appC8 "what is this".data).current_image_path
        = some "/tmp/i.png".data
    ∧ some "/tmp/i.png".data ≠ (none : Option (List Char)) := by
  refine ⟨rfl, by decide⟩

/-- C8 (amended): at spawn time `trigger_ollama_generation`
synchronously and unconditionally clears the encoded payload
`current_image_base64` (regardless of the request's eventual outcome —
the clearing is part of the synchronous spawn path), while
`current_image_path` is left exactly as it was. -/
theorem c8_image_clearing_amended (app : ShipApp) (prompt : List Char) :
    (trigger_ollama_generation app prompt).current_image_base64 = none
    ∧ (trigger_ollama_generation app prompt).current_image_path
        = app.current_image_path :=
  ⟨rfl, rfl⟩

end Ship

namespace Ship

lemma not_prefix_append {α : Type} [DecidableEq α] (a b r : List α)
    (hlen : a.length ≤ b.length) (hnp : ¬ a <+: b) : ¬ a <+: b ++ r :=
  fun h => hnp (List.prefix_of_prefix_length_le h (List.prefix_append b r) hlen)

lemma trimAux_of_not_pre (fuel : Nat) (pat s : List Char) (h : ¬ pat <+: s) :
    trimStartMatchesAux fuel pat s = s := by
  cases fuel with
  | zero => rfl
  | succ n =>
      unfold trimStartMatchesAux
      rw [if_neg (fun hc => h hc.2)]

lemma tag_not_prefix_colon (E : List Char) : ¬ researchDataTag <+: ':' :: E := by
  intro hpre
  obtain ⟨t, ht⟩ := hpre
  have hd : researchDataTag = '_' :: "_RESEARCH_DATA__".data := by decide
  rw [hd] at ht
  simp only [List.cons_append] at ht
  exact absurd (List.head_eq_of_cons_eq ht) (by decide)

lemma trimStartMatches_tag_colon (E : List Char) :
    trimStartMatches researchDataTag (researchDataTag ++ ':' :: E) = ':' :: E := by
  unfold trimStartMatches
  have hlen : (researchDataTag ++ ':' :: E).length = E.length + 18 := by
    simp only [List.length_append, List.length_cons]
    have : researchDataTag.length = 17 := by decide
    omega
  rw [hlen, show E.length + 18 = (E.length + 17) + 1 from rfl]
  unfold trimStartMatchesAux
  rw [if_pos ⟨by decide, List.prefix_append _ _⟩, List.drop_left]
  exact trimAux_of_not_pre _ _ _ (tag_not_prefix_colon E)

/-- C3 (counterexample): the worker encodes evidence `E = "foo"` as
`"__RESEARCH_DATA__:foo"`, but the orchestrator strips only the tag
`"__RESEARCH_DATA__"` — WITHOUT the colon — via `trim_start_matches`,
so it stores `":foo"`, not the claimed exact payload `"foo"`: one extra
leading character remains. -/
theorem c3_counterexample :
    (processMsg appC3 "__RESEARCH_DATA__:foo".data).research_results
        = ':' :: "foo".data
    ∧ ':' :: "foo".data ≠ "foo".data := by
  refine ⟨?_, by decide⟩
  decide

/-- C3 (amended): on processing `"__RESEARCH_DATA__:" ++ E`, the
orchestrator stores into `research_results` the message with all
leading occurrences of `"__RESEARCH_DATA__"` (sans colon) stripped,
i.e. `":" ++ E` — the colon separator is retained.  (Stated for states
whose last history entry is not a user turn, so that the buffer is not
immediately consumed by the follow-up inference spawn; the stored value
is the same in either case.) -/
theorem c3_research_payload_amended (app : ShipApp) (E : List Char)
    (h : app.messages.getLast?.map Message.role ≠ some userRole) :
    (processMsg app (researchDataTag ++ ':' :: E)).research_results = ':' :: E := by
  unfold processMsg
  rw [if_neg, if_neg, if_pos (List.prefix_append _ _)]
  · cases happ : app.messages.getLast? with
    | none => simp [happ, trimStartMatches_tag_colon]
    | some lm =>
        rw [happ] at h
        have hrole : ¬ lm.role = userRole := fun hr => h (by rw [Option.map_some', hr])
        simp [happ, hrole, trimStartMatches_tag_colon]
  · exact not_prefix_append statusTag researchDataTag (':' :: E) (by decide) (by decide)
  · intro heq
    have := congrArg List.length heq
    simp only [List.length_append, List.length_cons] at this
    have h17 : researchDataTag.length = 17 := by decide
    have h8 : doneStr.length = 8 := by decide
    omega

/-- C3 (witness for the amended theorem): evidence `"evidence"` is
stored as `":evidence"`. -/
theorem c3_witness :
    appC3.messages.getLast?.map Message.role ≠ some userRole
    ∧ (processMsg appC3 (researchDataTag ++ ':' :: "evidence".data)).research_results
        = ':' :: "evidence".data :=
  ⟨by decide, c3_research_payload_amended appC3 "evidence".data (by decide)⟩

end Ship

namespace Ship

lemma status_ne_empty (keyword : List Char) :
    statusMsgBytes keyword ≠ researchEmptyBytes := by
  intro heq
  have := congrArg List.length heq
  unfold statusMsgBytes at this
  rw [List.length_append, List.length_append] at this
  have h1 : (strBytes "__STATUS__: Scanning for signal '".data).length = 33 := by decide
  have h2 : (strBytes "'...".data).length = 4 := by decide
  have h3 : researchEmptyBytes.length = 18 := by decide
  omega

lemma tag_not_prefix_status (keyword : List Char) :
    ¬ researchDataTagBytes <+: statusMsgBytes keyword := by
  have hs : statusMsgBytes keyword
      = statusHeadBytes ++ (strBytes keyword ++ strBytes "'...".data) := by
    simp [statusMsgBytes, statusHeadBytes, List.append_assoc]
  rw [hs]
  exact not_prefix_append _ _ _ (by decide) (by decide)

lemma not_scan_terminal_status (keyword : List Char) :
    isScanTerminal (statusMsgBytes keyword) = false := by
  unfold isScanTerminal
  rw [beq_eq_false_iff_ne.mpr (status_ne_empty keyword),
    decide_eq_false (tag_not_prefix_status keyword)]
  rfl

/-- C7 (confirmed): provided the document loop completes (no snippet
panic — see C10 — interrupts it, i.e. all documents are processed,
which is the claim's own premise), the retrieval worker emits exactly
one terminal event: `__RESEARCH_EMPTY__` when the aggregated buffer is
empty and `__RESEARCH_DATA__:` carrying the FULL buffer otherwise; and
a document whose text extraction fails contributes nothing and does not
disturb the buffer computed from the remaining documents. -/
theorem c7_scan_terminal_protocol (keyword : List Char) (docs : List RDoc)
    (b : List Nat) (hdone : scanBuffer keyword docs = some b) :
    (scanWorkerEmits keyword docs).countP isScanTerminal = 1
    ∧ (b = [] → scanWorkerEmits keyword docs
        = [statusMsgBytes keyword, researchEmptyBytes])
    ∧ (b ≠ [] → scanWorkerEmits keyword docs
        = [statusMsgBytes keyword, researchDataTagBytes ++ b])
    ∧ (∀ pre post d, d.extract = none →
        scanBuffer keyword (pre ++ d :: post) = scanBuffer keyword (pre ++ post)) := by
  have hemits : scanWorkerEmits keyword docs
      = statusMsgBytes keyword
          :: (if b = [] then [researchEmptyBytes] else [researchDataTagBytes ++ b]) := by
    unfold scanWorkerEmits
    rw [hdone]
  refine ⟨?_, ?_, ?_, ?_⟩
  · rw [hemits]
    by_cases hb : b = []
    · rw [if_pos hb]
      have ht : isScanTerminal researchEmptyBytes = true := by decide
      rw [List.countP_cons, List.countP_cons, List.countP_nil,
        not_scan_terminal_status, ht]
      simp
    · rw [if_neg hb]
      have ht : isScanTerminal (researchDataTagBytes ++ b) = true := by
        simp [isScanTerminal, List.prefix_append]
      rw [List.countP_cons, List.countP_cons, List.countP_nil,
        not_scan_terminal_status, ht]
      simp
  · intro hb
    rw [hemits, if_pos hb]
  · intro hb
    rw [hemits, if_neg hb]
  · intro pre post d hd
    have hstep : ∀ acc : Option (List Nat),
        (acc.bind fun x => (docEntry keyword d).map fun e => x ++ e) = acc := by
      intro acc
      cases acc with
      | none => rfl
      | some x => simp [docEntry, hd]
    unfold scanBuffer
    rw [List.foldl_append, List.foldl_append, List.foldl_cons]
    congr 1
    exact hstep _

/-- C7 (witness): a two-document corpus whose second document fails
extraction still completes and emits exactly one terminal event. -/
theorem c7_witness :
    scanBuffer keywordC7W docsC7W = some bufC7W
    ∧ (scanWorkerEmits keywordC7W docsC7W).countP isScanTerminal = 1 :=
  ⟨by decide, (c7_scan_terminal_protocol keywordC7W docsC7W bufC7W (by decide)).1⟩

/-- C9 (counterexample): the claim says the probe "degrades to exactly
(0, 0) on any failure", listing unparseable fields among the failures,
but with output line `"x,100"` — whose first field is unparseable — the
code returns `(0, 100)`: `unwrap_or(0)` degrades per FIELD, not to the
pair `(0, 0)`. -/
theorem c9_counterexample :
    get_vram_usage (some "x,100".data) = (0, 100)
    ∧ ((0 : Nat), (100 : Nat)) ≠ ((0 : Nat), (0 : Nat)) := by
  refine ⟨by decide, by decide⟩

/-- C9 (amended): the probe returns `(0, 0)` when the command fails,
when stdout has no line, or when the first line does not split on `','`
into exactly two fields; with exactly two fields each field is parsed
independently and degrades to 0 by itself (`unwrap_or(0)`), so the
result is `(parse(a).unwrap_or(0), parse(b).unwrap_or(0))` — in
particular `(used, total)` when both fields parse. -/
theorem c9_vram_degradation_amended :
    get_vram_usage none = (0, 0)
    ∧ get_vram_usage (some []) = (0, 0)
    ∧ (∀ s line, firstLine s = some line → (splitComma line).length ≠ 2 →
        get_vram_usage (some s) = (0, 0))
    ∧ (∀ s line a b, firstLine s = some line → splitComma line = [a, b] →
        get_vram_usage (some s)
          = ((parseU64 (trimChars a)).getD 0, (parseU64 (trimChars b)).getD 0))
    ∧ (∀ s line a b u t, firstLine s = some line → splitComma line = [a, b] →
        parseU64 (trimChars a) = some u → parseU64 (trimChars b) = some t →
        get_vram_usage (some s) = (u, t)) := by
  have h4 : ∀ s line a b, firstLine s = some line → splitComma line = [a, b] →
      get_vram_usage (some s)
        = ((parseU64 (trimChars a)).getD 0, (parseU64 (trimChars b)).getD 0) := by
    intro s line a b h1 hsp
    simp [get_vram_usage, h1, hsp]
  refine ⟨rfl, by decide, ?_, h4, ?_⟩
  · intro s line h1 h2
    rcases hsp : splitComma line with _ | ⟨a, _ | ⟨b, _ | ⟨c, t⟩⟩⟩
    · simp [get_vram_usage, h1, hsp]
    · simp [get_vram_usage, h1, hsp]
    · rw [hsp] at h2
      simp at h2
    · simp [get_vram_usage, h1, hsp]
  · intro s line a b u t h1 hsp hu ht
    rw [h4 s line a b h1 hsp, hu, ht]
    rfl

/-- C9 (witness for the amended theorem): a well-formed nvidia-smi
output line parses into the pair of fields. -/
theorem c9_witness :
    firstLine " 123 , 456 \nrest".data = some " 123 , 456 ".data
    ∧ splitComma " 123 , 456 ".data = [" 123 ".data, " 456 ".data]
    ∧ parseU64 (trimChars " 123 ".data) = some 123
    ∧ parseU64 (trimChars " 456 ".data) = some 456
    ∧ get_vram_usage (some " 123 , 456 \nrest".data) = (123, 456) :=
  ⟨by decide, by decide, by decide, by decide,
    c9_vram_degradation_amended.2.2.2.2 " 123 , 456 \nrest".data " 123 , 456 ".data
      " 123 ".data " 456 ".data 123 456 (by decide) (by decide) (by decide) (by decide)⟩

end Ship
